import Mathlib

/-!
Verification development for the word-submission conflict-resolution workflow
of the add10words repository. The definitions below are a shallow embedding of
the POST branch of the canonical handler in `backend/routes/words.js`:
normalization (`normalizeList`), in-batch duplicate detection, the global
stored-word lookup, the `conflictsObj` response shaping, the validate/submit
split, the ordered batch insert against a unique index on `wordLower`, and the
race-recovery re-query after a duplicate-key insert failure.

JavaScript runtime behaviour is modelled explicitly: request-body JSON values
(`JSVal`) with their truthiness, the coercion `String(s || "")`, `trim`,
`toLowerCase` (ASCII, as all comparisons in scope are ASCII), `Set` dedup in
insertion order, and MongoDB `insertMany` with `ordered: true` stopping at the
first duplicate-key violation while keeping the already-inserted prefix.
The storage layer is a list of `WordRecord`s; a handler call takes a snapshot
`store` used by the pre-flight read and a snapshot `insertStore` that the
insert runs against, so that a concurrent writer slipping in between the two
is expressible (for the non-race theorems the two coincide).
-/

/-- A JSON value as it can appear in the request body's `words` array. -/
inductive JSVal where
  | vStr (s : String)
  | vNum (n : Int)
  | vBool (b : Bool)
  | vNull
deriving DecidableEq, Repr

/-- JavaScript `String(v)` on a JSON value. -/
def jsToString : JSVal → String
  | .vStr s => s
  | .vNum n => toString n
  | .vBool true => "true"
  | .vBool false => "false"
  | .vNull => "null"

/-- JavaScript truthiness test (false for `""`, `0`, `false`, `null`). -/
def jsFalsy : JSVal → Bool
  | .vStr s => s == ""
  | .vNum n => n == 0
  | .vBool b => !b
  | .vNull => true

/-- JavaScript `String(s || "")`: a falsy value is replaced by `""` first. -/
def jsOrEmpty (v : JSVal) : String :=
  if jsFalsy v then "" else jsToString v

/-- `c.toLowerCase()` on one ASCII character. -/
def lowerChar (c : Char) : Char :=
  if 65 ≤ c.toNat ∧ c.toNat ≤ 90 then Char.ofNat (c.toNat + 32) else c

/-- JavaScript `s.toLowerCase()` (ASCII range). -/
def toLowerStr (s : String) : String :=
  ⟨s.data.map lowerChar⟩

/-- Whitespace characters removed by `trim` (ASCII range). -/
def jsWhite (c : Char) : Bool :=
  c == ' ' || c == '\t' || c == '\n' || c == '\r'

/-- JavaScript `s.trim()`: strip whitespace at both ends. -/
def trimStr (s : String) : String :=
  ⟨((s.data.dropWhile jsWhite).reverse.dropWhile jsWhite).reverse⟩

/-- `normalizeList` of `backend/routes/words.js`: trim each coerced item,
drop the empty results, and pair the survivors with their lower-cased keys. -/
def normalizeList (items : List JSVal) : List String × List String :=
  let cleaned := (items.map (fun s => trimStr (jsOrEmpty s))).filter (fun s => s != "")
  (cleaned, cleaned.map toLowerStr)

/-- JavaScript `Array.from(new Set(l))`: dedup keeping first occurrences. -/
def jsSetDedupAux (seen : List String) : List String → List String
  | [] => []
  | x :: xs =>
    if x ∈ seen then jsSetDedupAux seen xs
    else x :: jsSetDedupAux (x :: seen) xs

/-- Dedup of a string list in insertion order, as a JavaScript `Set` does. -/
def jsSetDedup (l : List String) : List String :=
  jsSetDedupAux [] l

/-- The conflict report shape produced by `conflictsObj` in the handler. -/
structure Conflicts where
  db : List String
  inBatch : List String
deriving DecidableEq, Repr

/-- `conflictsObj` of `backend/routes/words.js`: lower-case, drop empties,
dedup both conflict lists. -/
def conflictsObj (db inBatch : List String) : Conflicts :=
  { db := jsSetDedup ((db.map toLowerStr).filter (fun s => s != "")),
    inBatch := jsSetDedup ((inBatch.map toLowerStr).filter (fun s => s != "")) }

/-- A persisted word document (`Word` model). -/
structure WordRecord where
  userId : String
  word : String
  wordLower : String
  addedAt : Nat
deriving DecidableEq, Repr

/-- In-batch duplicate detection (lines 116-121 of the handler): the keys of
the `counts` map, in first-occurrence order, whose count exceeds 1. -/
def inBatchDups (lowers : List String) : List String :=
  (jsSetDedup lowers).filter (fun k => decide (1 < lowers.count k))

/-- The global `savedLower` fetch (lines 123-140): every stored document's
`wordLower` (regardless of owner), lower-cased, non-empty, deduped. -/
def savedLowerOf (store : List WordRecord) : List String :=
  jsSetDedup
    ((store.map (fun r => if r.wordLower == "" then "" else toLowerStr r.wordLower)).filter
      (fun s => s != ""))

/-- `dbMatches` (lines 142-145): submitted lowers present in `savedLower`. -/
def dbMatchesOf (lowers savedLower : List String) : List String :=
  jsSetDedup (lowers.filter (fun l => savedLower.contains l))

/-- Outcome of `Word.insertMany(docs, { ordered: true })`. -/
structure InsertOutcome where
  store : List WordRecord
  insertedCount : Nat
  dupFailure : Bool
deriving DecidableEq, Repr

/-- Ordered insert against a unique index on `wordLower`: documents are
inserted one by one and the batch stops at the first duplicate-key violation,
keeping the documents already inserted. -/
def insertManyOrdered (store : List WordRecord) : List WordRecord → InsertOutcome
  | [] => ⟨store, 0, false⟩
  | d :: ds =>
    if store.any (fun r => r.wordLower == d.wordLower) then ⟨store, 0, true⟩
    else
      let rest := insertManyOrdered (store ++ [d]) ds
      ⟨rest.store, rest.insertedCount + 1, rest.dupFailure⟩

/-- The race-recovery re-query (lines 193-201): which of the submitted lowers
now exist, read back from storage and lower-cased. -/
def raceRequery (store : List WordRecord) (lowers : List String) : List String :=
  jsSetDedup
    ((store.filter (fun r => lowers.contains r.wordLower)).map
      (fun r => toLowerStr r.wordLower))

/-- The structured results the POST branch can answer with. -/
inductive HandlerResult where
  | badRequest (error : String) (conflicts : Conflicts)
  | validateReport (ok : Bool) (message : String) (conflicts : Conflicts)
  | conflict (error : String) (conflicts : Conflicts)
  | okAdded (added : Nat)
  | storageFailure (error : String)
deriving DecidableEq, Repr

/-- The POST branch of the canonical handler (`backend/routes/words.js`,
lines 103-217), for an authenticated user `userId`. `store` is the storage
snapshot the pre-flight read sees; `insertStore` is the snapshot the insert
runs against (they differ exactly when a concurrent writer slipped in
between). Returns the response together with the final storage state. -/
def handlePost (action : String) (items : List JSVal) (userId : String)
    (now : Nat) (store insertStore : List WordRecord) :
    HandlerResult × List WordRecord :=
  let act := toLowerStr action
  let cleaned := (normalizeList items).1
  let lowers := (normalizeList items).2
  if cleaned.length ≠ 10 then
    (.badRequest
      ("Exactly 10 words required. Received " ++ toString cleaned.length ++ ".")
      (conflictsObj [] []), insertStore)
  else
    let inBatch := inBatchDups lowers
    let dbMatches := dbMatchesOf lowers (savedLowerOf store)
    if act == "validate" then
      if dbMatches.length = 0 ∧ inBatch.length = 0 then
        (.validateReport true "No conflicts" (conflictsObj [] []), insertStore)
      else
        (.validateReport false "Conflicts found" (conflictsObj dbMatches inBatch),
          insertStore)
    else
      if 0 < inBatch.length ∨ 0 < dbMatches.length then
        (.conflict "Conflicts found. Fix duplicates before submitting."
          (conflictsObj dbMatches inBatch), insertStore)
      else
        let docs := cleaned.map (fun w => WordRecord.mk userId w (toLowerStr w) now)
        let out := insertManyOrdered insertStore docs
        if out.dupFailure then
          (.conflict "One or more words already exist (race condition)"
            (conflictsObj (raceRequery out.store lowers) []), out.store)
        else
          (.okAdded out.insertedCount, out.store)

/-- The amended normalization contract, written out: keep an item exactly when
it is truthy and its trimmed stringification is non-empty. -/
def coerceTruthyTrimmed (items : List JSVal) : List String :=
  items.filterMap (fun v =>
    if jsFalsy v then none
    else
      let t := trimStr (jsToString v)
      if t = "" then none else some t)

def raceBatch : List JSVal :=
  ["cat","w1","w2","w3","w4","w5","w6","w7","w8","w9"].map JSVal.vStr

def raceStore : List WordRecord := [WordRecord.mk "u2" "Cat" "cat" 0]

def p2Batch : List JSVal :=
  ["Cat","cat","dog","Dog","a","b","c","d","e","f"].map JSVal.vStr

def p3Batch : List JSVal :=
  ["Apple","w1","w2","w3","w4","w5","w6","w7","w8","w9"].map JSVal.vStr

def p3Store : List WordRecord := [WordRecord.mk "someone" "apple" "apple" 2]

lemma toNat_ofNat_valid {n : Nat} (h : n < 0xd800) : (Char.ofNat n).toNat = n := by
  rw [Char.ofNat, dif_pos (Or.inl h)]
  simp [Char.ofNatAux, Char.toNat, UInt32.ofNat', UInt32.toNat, BitVec.ofNatLt]

lemma lowerChar_idem (c : Char) : lowerChar (lowerChar c) = lowerChar c := by
  unfold lowerChar
  by_cases h : 65 ≤ c.toNat ∧ c.toNat ≤ 90
  · rw [if_pos h]
    have ht : (Char.ofNat (c.toNat + 32)).toNat = c.toNat + 32 :=
      toNat_ofNat_valid (by omega)
    rw [if_neg (by rw [ht]; omega)]
  · rw [if_neg h, if_neg h]

lemma toLowerStr_idem (s : String) : toLowerStr (toLowerStr s) = toLowerStr s := by
  apply congrArg String.mk
  show (s.data.map lowerChar).map lowerChar = s.data.map lowerChar
  rw [List.map_map]
  exact List.map_congr_left (fun c _ => lowerChar_idem c)

lemma toLowerStr_eq_empty_iff (s : String) : toLowerStr s = "" ↔ s = "" := by
  constructor
  · intro h
    have hd : s.data.map lowerChar = [] := congrArg String.data h
    have hnil : s.data = [] := by simpa using hd
    cases s
    simp_all
  · intro h
    subst h
    rfl

lemma mem_contains_iff (l : List String) (a : String) : l.contains a = true ↔ a ∈ l := by
  simp

lemma mem_jsSetDedupAux (seen l : List String) (a : String) :
    a ∈ jsSetDedupAux seen l ↔ a ∈ l ∧ a ∉ seen := by
  induction l generalizing seen with
  | nil => simp [jsSetDedupAux]
  | cons x xs ih =>
    simp only [jsSetDedupAux]
    by_cases hx : x ∈ seen
    · rw [if_pos hx, ih]
      simp only [List.mem_cons]
      constructor
      · rintro ⟨h1, h2⟩; exact ⟨Or.inr h1, h2⟩
      · rintro ⟨rfl | h1, h2⟩
        · exact absurd hx h2
        · exact ⟨h1, h2⟩
    · rw [if_neg hx]
      simp only [List.mem_cons, ih]
      constructor
      · rintro (rfl | ⟨h1, h2⟩)
        · exact ⟨Or.inl rfl, hx⟩
        · exact ⟨Or.inr h1, fun hc => h2 (Or.inr hc)⟩
      · rintro ⟨rfl | h1, h2⟩
        · exact Or.inl rfl
        · by_cases hax : a = x
          · exact Or.inl hax
          · exact Or.inr ⟨h1, fun hc => hc.elim hax h2⟩

lemma mem_jsSetDedup (l : List String) (a : String) : a ∈ jsSetDedup l ↔ a ∈ l := by
  simp [jsSetDedup, mem_jsSetDedupAux]

lemma nodup_jsSetDedupAux (seen l : List String) : (jsSetDedupAux seen l).Nodup := by
  induction l generalizing seen with
  | nil => simp [jsSetDedupAux]
  | cons x xs ih =>
    by_cases hx : x ∈ seen
    · simpa [jsSetDedupAux, if_pos hx] using ih seen
    · simp only [jsSetDedupAux, if_neg hx]
      refine List.Nodup.cons ?_ (ih (x :: seen))
      intro hmem
      rw [mem_jsSetDedupAux] at hmem
      exact hmem.2 (List.mem_cons_self x seen)

lemma nodup_jsSetDedup (l : List String) : (jsSetDedup l).Nodup :=
  nodup_jsSetDedupAux [] l

lemma normalizeList_fst (items : List JSVal) :
    (normalizeList items).1 =
      (items.map (fun s => trimStr (jsOrEmpty s))).filter (fun s => s != "") := rfl

lemma normalizeList_snd (items : List JSVal) :
    (normalizeList items).2 = ((normalizeList items).1).map toLowerStr := rfl

lemma mem_cleaned_ne_empty {items : List JSVal} {w : String}
    (hw : w ∈ (normalizeList items).1) : w ≠ "" := by
  rw [normalizeList_fst] at hw
  have := (List.mem_filter.mp hw).2
  simpa using this

lemma mem_lowers_fixed {items : List JSVal} {k : String}
    (hk : k ∈ (normalizeList items).2) : toLowerStr k = k := by
  rw [normalizeList_snd] at hk
  obtain ⟨w, _, rfl⟩ := List.mem_map.mp hk
  exact toLowerStr_idem w

lemma mem_lowers_ne_empty {items : List JSVal} {k : String}
    (hk : k ∈ (normalizeList items).2) : k ≠ "" := by
  rw [normalizeList_snd] at hk
  obtain ⟨w, hw, rfl⟩ := List.mem_map.mp hk
  intro hc
  exact mem_cleaned_ne_empty hw ((toLowerStr_eq_empty_iff w).mp hc)

lemma mem_savedLowerOf (store : List WordRecord) (k : String) :
    k ∈ savedLowerOf store ↔
      ∃ r ∈ store, r.wordLower ≠ "" ∧ toLowerStr r.wordLower = k := by
  unfold savedLowerOf
  rw [mem_jsSetDedup, List.mem_filter]
  constructor
  · rintro ⟨hmem, hne⟩
    obtain ⟨r, hr, hrk⟩ := List.mem_map.mp hmem
    by_cases hz : r.wordLower = ""
    · rw [if_pos (by simp [hz])] at hrk
      subst hrk
      simp at hne
    · rw [if_neg (by simp [hz])] at hrk
      exact ⟨r, hr, hz, hrk⟩
  · rintro ⟨r, hr, hz, hk⟩
    refine ⟨List.mem_map.mpr ⟨r, hr, by rw [if_neg (by simp [hz])]; exact hk⟩, ?_⟩
    subst hk
    simpa using fun hc => hz ((toLowerStr_eq_empty_iff _).mp hc)

lemma mem_dbMatchesOf (lowers sl : List String) (k : String) :
    k ∈ dbMatchesOf lowers sl ↔ k ∈ lowers ∧ k ∈ sl := by
  unfold dbMatchesOf
  rw [mem_jsSetDedup, List.mem_filter]
  simp

lemma mem_inBatchDups (lowers : List String) (k : String) :
    k ∈ inBatchDups lowers ↔ 1 < lowers.count k := by
  unfold inBatchDups
  rw [List.mem_filter, mem_jsSetDedup]
  constructor
  · rintro ⟨_, h⟩
    simpa using h
  · intro h
    exact ⟨List.count_pos_iff.mp (by omega), by simpa using h⟩

lemma nodup_of_inBatchDups_eq_nil {lowers : List String}
    (h : inBatchDups lowers = []) : lowers.Nodup := by
  rw [List.nodup_iff_count_le_one]
  intro a
  by_contra hc
  push_neg at hc
  have ha : a ∈ inBatchDups lowers := (mem_inBatchDups lowers a).mpr hc
  simp [h] at ha

lemma mem_raceRequery (st : List WordRecord) (lowers : List String) (k : String) :
    k ∈ raceRequery st lowers ↔
      ∃ r ∈ st, r.wordLower ∈ lowers ∧ toLowerStr r.wordLower = k := by
  unfold raceRequery
  rw [mem_jsSetDedup]
  simp only [List.mem_map, List.mem_filter, mem_contains_iff]
  constructor
  · rintro ⟨r, ⟨hr, hl⟩, hk⟩
    exact ⟨r, hr, hl, hk⟩
  · rintro ⟨r, hr, hl, hk⟩
    exact ⟨r, ⟨hr, hl⟩, hk⟩

lemma mem_conflictsObj_db (l m : List String) (k : String) :
    k ∈ (conflictsObj l m).db ↔ (∃ j ∈ l, toLowerStr j = k) ∧ k ≠ "" := by
  unfold conflictsObj
  rw [mem_jsSetDedup, List.mem_filter]
  simp

lemma conflictsObj_inBatch_nil (l : List String) : (conflictsObj l []).inBatch = [] := rfl

lemma insertManyOrdered_success :
    ∀ (docs store : List WordRecord),
      (docs.map (fun d => d.wordLower)).Nodup →
      (∀ d ∈ docs, ∀ r ∈ store, r.wordLower ≠ d.wordLower) →
      insertManyOrdered store docs = ⟨store ++ docs, docs.length, false⟩ := by
  intro docs
  induction docs with
  | nil => intro store _ _; simp [insertManyOrdered]
  | cons d ds ih =>
    intro store hnd hdisj
    have hany : store.any (fun r => r.wordLower == d.wordLower) = false := by
      rw [List.any_eq_false]
      intro r hr
      simpa using hdisj d (List.mem_cons_self d ds) r hr
    rw [List.map_cons, List.nodup_cons] at hnd
    have hrec := ih (store ++ [d]) hnd.2 ?_
    · simp only [insertManyOrdered, hany]
      rw [hrec]
      simp [List.append_assoc]
    · intro e he r hr
      rcases List.mem_append.mp hr with hr | hr
      · exact hdisj e (List.mem_cons_of_mem d he) r hr
      · rcases List.mem_singleton.mp hr with rfl
        intro hc
        exact hnd.1 (hc ▸ List.mem_map.mpr ⟨e, he, rfl⟩)

lemma insertManyOrdered_nodup :
    ∀ (docs store : List WordRecord),
      (store.map (fun r => r.wordLower)).Nodup →
      (((insertManyOrdered store docs).store).map (fun r => r.wordLower)).Nodup := by
  intro docs
  induction docs with
  | nil => intro store h; simpa [insertManyOrdered] using h
  | cons d ds ih =>
    intro store h
    by_cases hany : store.any (fun r => r.wordLower == d.wordLower) = true
    · simpa [insertManyOrdered, hany] using h
    · rw [Bool.not_eq_true] at hany
      simp only [insertManyOrdered, hany]
      apply ih (store ++ [d])
      rw [List.map_append, List.nodup_append]
      refine ⟨h, by simp, ?_⟩
      intro a ha hb
      rcases List.mem_map.mp ha with ⟨r, hr, rfl⟩
      have hb2 : r.wordLower = d.wordLower := by simpa using hb
      have := List.any_eq_false.mp hany r hr
      simp at this
      exact this hb2

lemma handlePost_badRequest (action : String) (items : List JSVal) (u : String)
    (now : Nat) (store s1 : List WordRecord)
    (h : (normalizeList items).1.length ≠ 10) :
    handlePost action items u now store s1 =
      (.badRequest ("Exactly 10 words required. Received " ++
          toString (normalizeList items).1.length ++ ".") (conflictsObj [] []), s1) := by
  simp only [handlePost]
  rw [if_pos h]

lemma handlePost_validate_eq (action : String) (items : List JSVal) (u : String)
    (now : Nat) (store s1 : List WordRecord)
    (hlen : (normalizeList items).1.length = 10)
    (hact : toLowerStr action = "validate") :
    handlePost action items u now store s1 =
      (if (dbMatchesOf (normalizeList items).2 (savedLowerOf store)).length = 0 ∧
          (inBatchDups (normalizeList items).2).length = 0 then
        (.validateReport true "No conflicts" (conflictsObj [] []), s1)
      else
        (.validateReport false "Conflicts found"
          (conflictsObj (dbMatchesOf (normalizeList items).2 (savedLowerOf store))
            (inBatchDups (normalizeList items).2)), s1)) := by
  simp only [handlePost]
  rw [if_neg (by simp [hlen]), if_pos (by simp [hact])]

lemma handlePost_submit_conflict (action : String) (items : List JSVal) (u : String)
    (now : Nat) (store s1 : List WordRecord)
    (hlen : (normalizeList items).1.length = 10)
    (hact : toLowerStr action ≠ "validate")
    (hconf : inBatchDups (normalizeList items).2 ≠ [] ∨
             dbMatchesOf (normalizeList items).2 (savedLowerOf store) ≠ []) :
    handlePost action items u now store s1 =
      (.conflict "Conflicts found. Fix duplicates before submitting."
        (conflictsObj (dbMatchesOf (normalizeList items).2 (savedLowerOf store))
          (inBatchDups (normalizeList items).2)), s1) := by
  simp only [handlePost]
  rw [if_neg (by simp [hlen]), if_neg (by simp [hact]), if_pos ?hc]
  case hc =>
    rcases hconf with h | h
    · exact Or.inl (List.length_pos.mpr h)
    · exact Or.inr (List.length_pos.mpr h)

lemma handlePost_submit_insert (action : String) (items : List JSVal) (u : String)
    (now : Nat) (store s1 : List WordRecord)
    (hlen : (normalizeList items).1.length = 10)
    (hact : toLowerStr action ≠ "validate")
    (hib : inBatchDups (normalizeList items).2 = [])
    (hdb : dbMatchesOf (normalizeList items).2 (savedLowerOf store) = []) :
    handlePost action items u now store s1 =
      (let out := insertManyOrdered s1
        (((normalizeList items).1).map (fun w => WordRecord.mk u w (toLowerStr w) now))
       if out.dupFailure then
         (.conflict "One or more words already exist (race condition)"
            (conflictsObj (raceRequery out.store (normalizeList items).2) []), out.store)
       else (.okAdded out.insertedCount, out.store)) := by
  simp only [handlePost]
  rw [if_neg (by simp [hlen]), if_neg (by simp [hact]), if_neg (by simp [hib, hdb])]

lemma docs_map_wordLower (items : List JSVal) (u : String) (now : Nat) :
    ((((normalizeList items).1).map (fun w => WordRecord.mk u w (toLowerStr w) now)).map
        (fun d => d.wordLower)) = (normalizeList items).2 := by
  rw [normalizeList_snd, List.map_map]
  rfl

lemma docs_disjoint_of_dbMatches_nil (items : List JSVal) (store : List WordRecord)
    (u : String) (now : Nat)
    (hdb : dbMatchesOf (normalizeList items).2 (savedLowerOf store) = []) :
    ∀ d ∈ ((normalizeList items).1).map (fun w => WordRecord.mk u w (toLowerStr w) now),
      ∀ r ∈ store, r.wordLower ≠ d.wordLower := by
  intro d hd r hr hc
  rcases List.mem_map.mp hd with ⟨w, hw, rfl⟩
  have hc2 : r.wordLower = toLowerStr w := hc
  have hkl : toLowerStr w ∈ (normalizeList items).2 := by
    rw [normalizeList_snd]
    exact List.mem_map.mpr ⟨w, hw, rfl⟩
  have hkne : toLowerStr w ≠ "" := mem_lowers_ne_empty hkl
  have hsaved : toLowerStr w ∈ savedLowerOf store := by
    rw [mem_savedLowerOf]
    refine ⟨r, hr, ?_, ?_⟩
    · intro hz
      rw [hz] at hc2
      exact hkne hc2.symm
    · rw [hc2]
      exact toLowerStr_idem w
  have hmem : toLowerStr w ∈ dbMatchesOf (normalizeList items).2 (savedLowerOf store) :=
    (mem_dbMatchesOf _ _ _).mpr ⟨hkl, hsaved⟩
  simp [hdb] at hmem

/-- C2: a batch whose normalized item count differs from 10 makes both
validate and submit fail with the BadRequest error reporting the actual
count; the response is independent of the storage contents (no read) and the
storage state is returned unchanged (no write). -/
theorem claim_count_gate (action : String) (items : List JSVal) (u : String)
    (now : Nat) (store store' s1 : List WordRecord)
    (h : (normalizeList items).1.length ≠ 10) :
    (handlePost action items u now store s1 =
      (.badRequest ("Exactly 10 words required. Received " ++
          toString (normalizeList items).1.length ++ ".") (conflictsObj [] []), s1))
    ∧ (handlePost action items u now store s1).1 =
        (handlePost action items u now store' s1).1 := by
  refine ⟨handlePost_badRequest action items u now store s1 h, ?_⟩
  rw [handlePost_badRequest action items u now store s1 h,
    handlePost_badRequest action items u now store' s1 h]

theorem claim_count_gate_witness :
    (normalizeList [JSVal.vStr "a"]).1.length ≠ 10 ∧
    ((handlePost "validate" [JSVal.vStr "a"] "u" 0 [] [] =
      (.badRequest ("Exactly 10 words required. Received " ++
          toString (normalizeList [JSVal.vStr "a"]).1.length ++ ".") (conflictsObj [] []), []))
    ∧ (handlePost "validate" [JSVal.vStr "a"] "u" 0 [] []).1 =
        (handlePost "validate" [JSVal.vStr "a"] "u" 0 [WordRecord.mk "x" "y" "y" 0] []).1) :=
  ⟨by decide,
    claim_count_gate "validate" [JSVal.vStr "a"] "u" 0 [] [WordRecord.mk "x" "y" "y" 0] []
      (by decide)⟩

/-- C3: when pre-flight detection finds any in-batch or stored conflict, a
submit call answers with the Conflict failure carrying the conflict report,
performs no insert, and hands back the storage state unchanged. -/
theorem claim_conflict_submit_aborts (action : String) (items : List JSVal) (u : String)
    (now : Nat) (store s1 : List WordRecord)
    (hlen : (normalizeList items).1.length = 10)
    (hact : toLowerStr action ≠ "validate")
    (hconf : inBatchDups (normalizeList items).2 ≠ [] ∨
             dbMatchesOf (normalizeList items).2 (savedLowerOf store) ≠ []) :
    (handlePost action items u now store s1 =
      (.conflict "Conflicts found. Fix duplicates before submitting."
        (conflictsObj (dbMatchesOf (normalizeList items).2 (savedLowerOf store))
          (inBatchDups (normalizeList items).2)), s1))
    ∧ ((handlePost action items u now store s1).2).length = s1.length := by
  have h := handlePost_submit_conflict action items u now store s1 hlen hact hconf
  exact ⟨h, by rw [h]⟩

theorem claim_conflict_submit_aborts_witness :
    ((normalizeList (["dup","Dup","b1","b2","b3","b4","b5","b6","b7","b8"].map JSVal.vStr)).1.length = 10
      ∧ toLowerStr "submit" ≠ "validate"
      ∧ inBatchDups (normalizeList (["dup","Dup","b1","b2","b3","b4","b5","b6","b7","b8"].map JSVal.vStr)).2 ≠ [])
    ∧ ((handlePost "submit" (["dup","Dup","b1","b2","b3","b4","b5","b6","b7","b8"].map JSVal.vStr)
          "u" 7 [] [] =
      (.conflict "Conflicts found. Fix duplicates before submitting."
        (conflictsObj
          (dbMatchesOf (normalizeList (["dup","Dup","b1","b2","b3","b4","b5","b6","b7","b8"].map JSVal.vStr)).2
            (savedLowerOf []))
          (inBatchDups (normalizeList (["dup","Dup","b1","b2","b3","b4","b5","b6","b7","b8"].map JSVal.vStr)).2)), []))
    ∧ ((handlePost "submit" (["dup","Dup","b1","b2","b3","b4","b5","b6","b7","b8"].map JSVal.vStr)
          "u" 7 [] []).2).length = List.length ([] : List WordRecord)) :=
  ⟨⟨by decide, by decide, by decide⟩,
    claim_conflict_submit_aborts "submit"
      (["dup","Dup","b1","b2","b3","b4","b5","b6","b7","b8"].map JSVal.vStr) "u" 7 [] []
      (by decide) (by decide) (Or.inl (by decide))⟩

/-- C7: validate never mutates storage (the returned state is always exactly
the pre-call insert-time state), and re-running validate on the state left by
a first validate call returns an identical result. -/
theorem claim_validate_pure (action : String) (items : List JSVal) (u : String)
    (now : Nat) (store s1 : List WordRecord)
    (hact : toLowerStr action = "validate") :
    (handlePost action items u now store s1).2 = s1
    ∧ handlePost action items u now
        ((handlePost action items u now store store).2)
        ((handlePost action items u now store store).2) =
      handlePost action items u now store store := by
  have frame : ∀ t1 : List WordRecord, (handlePost action items u now store t1).2 = t1 := by
    intro t1
    by_cases hlen : (normalizeList items).1.length = 10
    · rw [handlePost_validate_eq action items u now store t1 hlen hact]
      split_ifs <;> rfl
    · rw [handlePost_badRequest action items u now store t1 hlen]
  refine ⟨frame s1, ?_⟩
  rw [frame store]

theorem claim_validate_pure_witness :
    toLowerStr "validate" = "validate" ∧
    ((handlePost "validate" (["w1","w2","w3","w4","w5","w6","w7","w8","w9","w0"].map JSVal.vStr)
        "u" 3 [WordRecord.mk "v" "w1" "w1" 0] [WordRecord.mk "v" "w1" "w1" 0]).2 =
      [WordRecord.mk "v" "w1" "w1" 0]
    ∧ handlePost "validate" (["w1","w2","w3","w4","w5","w6","w7","w8","w9","w0"].map JSVal.vStr)
        "u" 3
        ((handlePost "validate" (["w1","w2","w3","w4","w5","w6","w7","w8","w9","w0"].map JSVal.vStr)
            "u" 3 [WordRecord.mk "v" "w1" "w1" 0] [WordRecord.mk "v" "w1" "w1" 0]).2)
        ((handlePost "validate" (["w1","w2","w3","w4","w5","w6","w7","w8","w9","w0"].map JSVal.vStr)
            "u" 3 [WordRecord.mk "v" "w1" "w1" 0] [WordRecord.mk "v" "w1" "w1" 0]).2) =
      handlePost "validate" (["w1","w2","w3","w4","w5","w6","w7","w8","w9","w0"].map JSVal.vStr)
        "u" 3 [WordRecord.mk "v" "w1" "w1" 0] [WordRecord.mk "v" "w1" "w1" 0]) :=
  ⟨by decide,
    claim_validate_pure "validate"
      (["w1","w2","w3","w4","w5","w6","w7","w8","w9","w0"].map JSVal.vStr) "u" 3
      [WordRecord.mk "v" "w1" "w1" 0] [WordRecord.mk "v" "w1" "w1" 0] (by decide)⟩

/-- C4: a clean 10-word batch submitted with no concurrent writer builds one
record per cleaned word (owner, original-case display, lower-cased key,
current time), inserts all of them, answers insertedCount = 10, and the final
storage state is exactly the old one extended by those records. -/
theorem claim_clean_submit (action : String) (items : List JSVal) (u : String)
    (now : Nat) (store : List WordRecord)
    (hlen : (normalizeList items).1.length = 10)
    (hact : toLowerStr action ≠ "validate")
    (hib : inBatchDups (normalizeList items).2 = [])
    (hdb : dbMatchesOf (normalizeList items).2 (savedLowerOf store) = []) :
    (handlePost action items u now store store =
      (.okAdded 10,
        store ++ ((normalizeList items).1).map (fun w => WordRecord.mk u w (toLowerStr w) now)))
    ∧ ∀ w ∈ (normalizeList items).1,
        WordRecord.mk u w (toLowerStr w) now ∈ (handlePost action items u now store store).2 := by
  have hnodup : ((((normalizeList items).1).map
      (fun w => WordRecord.mk u w (toLowerStr w) now)).map (fun d => d.wordLower)).Nodup := by
    rw [docs_map_wordLower]
    exact nodup_of_inBatchDups_eq_nil hib
  have hdisj := docs_disjoint_of_dbMatches_nil items store u now hdb
  have hsucc := insertManyOrdered_success
    (((normalizeList items).1).map (fun w => WordRecord.mk u w (toLowerStr w) now))
    store hnodup hdisj
  have hred := handlePost_submit_insert action items u now store store hlen hact hib hdb
  have hlen10 : ((((normalizeList items).1).map
      (fun w => WordRecord.mk u w (toLowerStr w) now)).length) = 10 := by
    rw [List.length_map]
    exact hlen
  have hmain : handlePost action items u now store store =
      (.okAdded 10,
        store ++ ((normalizeList items).1).map (fun w => WordRecord.mk u w (toLowerStr w) now)) := by
    rw [hred]
    simp only [hsucc, hlen10]
    simp
  refine ⟨hmain, ?_⟩
  intro w hw
  rw [hmain]
  exact List.mem_append.mpr (Or.inr (List.mem_map.mpr ⟨w, hw, rfl⟩))

theorem claim_clean_submit_witness :
    ((normalizeList (["Ant","Bee","Cow","Dog","Elk","Fox","Gnu","Hen","Owl","Pig"].map JSVal.vStr)).1.length = 10
      ∧ toLowerStr "submit" ≠ "validate"
      ∧ inBatchDups (normalizeList (["Ant","Bee","Cow","Dog","Elk","Fox","Gnu","Hen","Owl","Pig"].map JSVal.vStr)).2 = []
      ∧ dbMatchesOf (normalizeList (["Ant","Bee","Cow","Dog","Elk","Fox","Gnu","Hen","Owl","Pig"].map JSVal.vStr)).2
          (savedLowerOf [WordRecord.mk "v" "Yak" "yak" 1]) = [])
    ∧ ((handlePost "submit" (["Ant","Bee","Cow","Dog","Elk","Fox","Gnu","Hen","Owl","Pig"].map JSVal.vStr)
        "u" 9 [WordRecord.mk "v" "Yak" "yak" 1] [WordRecord.mk "v" "Yak" "yak" 1] =
      (.okAdded 10,
        [WordRecord.mk "v" "Yak" "yak" 1] ++
          ((normalizeList (["Ant","Bee","Cow","Dog","Elk","Fox","Gnu","Hen","Owl","Pig"].map JSVal.vStr)).1).map
            (fun w => WordRecord.mk "u" w (toLowerStr w) 9)))
    ∧ ∀ w ∈ (normalizeList (["Ant","Bee","Cow","Dog","Elk","Fox","Gnu","Hen","Owl","Pig"].map JSVal.vStr)).1,
        WordRecord.mk "u" w (toLowerStr w) 9 ∈
          (handlePost "submit" (["Ant","Bee","Cow","Dog","Elk","Fox","Gnu","Hen","Owl","Pig"].map JSVal.vStr)
            "u" 9 [WordRecord.mk "v" "Yak" "yak" 1] [WordRecord.mk "v" "Yak" "yak" 1]).2) :=
  ⟨⟨by decide, by decide, by decide, by decide⟩,
    claim_clean_submit "submit"
      (["Ant","Bee","Cow","Dog","Elk","Fox","Gnu","Hen","Owl","Pig"].map JSVal.vStr) "u" 9
      [WordRecord.mk "v" "Yak" "yak" 1] (by decide) (by decide) (by decide) (by decide)⟩

/-- C1: when a clean 10-word submit nonetheless hits a duplicate-key failure
at insert time (a concurrent writer won the race), the handler answers with
the same Conflict shape as a pre-flight conflict - not a storage failure:
its inBatchConflicts is empty and its storedConflicts is exactly the set of
submitted keys that now exist in storage. -/
theorem claim_race_conflict (action : String) (items : List JSVal) (u : String)
    (now : Nat) (store insertStore : List WordRecord)
    (hlen : (normalizeList items).1.length = 10)
    (hact : toLowerStr action ≠ "validate")
    (hib : inBatchDups (normalizeList items).2 = [])
    (hdb : dbMatchesOf (normalizeList items).2 (savedLowerOf store) = [])
    (hfail : (insertManyOrdered insertStore
        (((normalizeList items).1).map (fun w => WordRecord.mk u w (toLowerStr w) now))).dupFailure
        = true) :
    (handlePost action items u now store insertStore =
      (.conflict "One or more words already exist (race condition)"
        (conflictsObj
          (raceRequery
            (insertManyOrdered insertStore
              (((normalizeList items).1).map (fun w => WordRecord.mk u w (toLowerStr w) now))).store
            (normalizeList items).2) []),
       (insertManyOrdered insertStore
          (((normalizeList items).1).map (fun w => WordRecord.mk u w (toLowerStr w) now))).store))
    ∧ (conflictsObj
        (raceRequery
          (insertManyOrdered insertStore
            (((normalizeList items).1).map (fun w => WordRecord.mk u w (toLowerStr w) now))).store
          (normalizeList items).2) []).inBatch = []
    ∧ ∀ k, (k ∈ (conflictsObj
          (raceRequery
            (insertManyOrdered insertStore
              (((normalizeList items).1).map (fun w => WordRecord.mk u w (toLowerStr w) now))).store
            (normalizeList items).2) []).db ↔
        (k ∈ (normalizeList items).2 ∧
          ∃ r ∈ (insertManyOrdered insertStore
              (((normalizeList items).1).map (fun w => WordRecord.mk u w (toLowerStr w) now))).store,
            r.wordLower = k)) := by
  refine ⟨?_, rfl, ?_⟩
  · rw [handlePost_submit_insert action items u now store insertStore hlen hact hib hdb]
    simp only [hfail]
    simp
  · intro k
    rw [mem_conflictsObj_db]
    constructor
    · rintro ⟨⟨j, hj, hjk⟩, hkne⟩
      rw [mem_raceRequery] at hj
      obtain ⟨r, hr, hrl, hrj⟩ := hj
      have hfix : toLowerStr r.wordLower = r.wordLower := mem_lowers_fixed hrl
      rw [hfix] at hrj
      subst hrj
      rw [hfix] at hjk
      subst hjk
      exact ⟨hrl, r, hr, rfl⟩
    · rintro ⟨hkl, r, hr, hrk⟩
      have hfix : toLowerStr k = k := mem_lowers_fixed hkl
      refine ⟨⟨toLowerStr r.wordLower, ?_, ?_⟩, mem_lowers_ne_empty hkl⟩
      · rw [mem_raceRequery]
        exact ⟨r, hr, by rw [hrk]; exact hkl, rfl⟩
      · rw [hrk, toLowerStr_idem k]
        exact hfix

theorem claim_race_conflict_witness :
    ((normalizeList raceBatch).1.length = 10
      ∧ (insertManyOrdered raceStore
          (((normalizeList raceBatch).1).map
            (fun w => WordRecord.mk "u" w (toLowerStr w) 1))).dupFailure = true)
    ∧ handlePost "submit" raceBatch "u" 1 [] raceStore =
      (.conflict "One or more words already exist (race condition)"
        (conflictsObj
          (raceRequery
            (insertManyOrdered raceStore
              (((normalizeList raceBatch).1).map
                (fun w => WordRecord.mk "u" w (toLowerStr w) 1))).store
            (normalizeList raceBatch).2) []),
       (insertManyOrdered raceStore
          (((normalizeList raceBatch).1).map
            (fun w => WordRecord.mk "u" w (toLowerStr w) 1))).store) :=
  ⟨⟨by decide, by decide⟩,
    (claim_race_conflict "submit" raceBatch "u" 1 [] raceStore
      (by decide) (by decide) (by decide) (by decide) (by decide)).1⟩

/-- C5: over a normalized batch, a key is reported as an in-batch conflict
exactly when it occurs more than once among the batch's lower-cased keys;
the reported keys are themselves lower-cased and the report is duplicate-free. -/
theorem claim_inbatch_detection (items : List JSVal) :
    (∀ k, k ∈ inBatchDups (normalizeList items).2 ↔
        1 < ((normalizeList items).2).count k)
    ∧ (∀ k, k ∈ inBatchDups (normalizeList items).2 → toLowerStr k = k)
    ∧ (inBatchDups (normalizeList items).2).Nodup := by
  refine ⟨fun k => mem_inBatchDups _ k, fun k hk => ?_, ?_⟩
  · have hc := (mem_inBatchDups _ k).mp hk
    have hpos : 0 < ((normalizeList items).2).count k := by omega
    exact mem_lowers_fixed (List.count_pos_iff.mp hpos)
  · exact List.Nodup.filter _ (nodup_jsSetDedup _)

theorem claim_inbatch_detection_witness :
    ("cat" ∈ inBatchDups (normalizeList p2Batch).2 ↔
        1 < ((normalizeList p2Batch).2).count "cat")
    ∧ inBatchDups (normalizeList p2Batch).2 = ["cat", "dog"] :=
  ⟨(claim_inbatch_detection p2Batch).1 "cat", by decide⟩

/-- C6: over a normalized batch and any storage state, a key is reported as a
stored conflict exactly when it is one of the batch's lower-cased keys and
some persisted record's stored key lower-cases to it (so the comparison is
case-insensitive on both sides). -/
theorem claim_stored_detection (items : List JSVal) (store : List WordRecord) :
    ∀ k, k ∈ dbMatchesOf (normalizeList items).2 (savedLowerOf store) ↔
      (k ∈ (normalizeList items).2 ∧ ∃ r ∈ store, toLowerStr r.wordLower = k) := by
  intro k
  rw [mem_dbMatchesOf, mem_savedLowerOf]
  constructor
  · rintro ⟨hk, r, hr, _, hrk⟩
    exact ⟨hk, r, hr, hrk⟩
  · rintro ⟨hk, r, hr, hrk⟩
    refine ⟨hk, r, hr, ?_, hrk⟩
    intro hz
    apply mem_lowers_ne_empty hk
    rw [← hrk, hz]
    rfl

theorem claim_stored_detection_witness :
    ("apple" ∈ dbMatchesOf (normalizeList p3Batch).2 (savedLowerOf p3Store) ↔
      ("apple" ∈ (normalizeList p3Batch).2 ∧
        ∃ r ∈ p3Store, toLowerStr r.wordLower = "apple"))
    ∧ dbMatchesOf (normalizeList p3Batch).2 (savedLowerOf p3Store) = ["apple"] :=
  ⟨claim_stored_detection p3Batch p3Store "apple", by decide⟩

/-- C8: the two detections are independent: with the same key "apple" and
suitable batches/stores, all four membership combinations of
inBatchConflicts and storedConflicts are realized - in particular a word
duplicated in the batch that also already exists in storage appears in both
sets simultaneously. -/
theorem claim_checks_independent :
    (("apple" ∈ inBatchDups (normalizeList (["apple","Apple","b1","b2","b3","b4","b5","b6","b7","b8"].map JSVal.vStr)).2)
      ∧ ("apple" ∈ dbMatchesOf (normalizeList (["apple","Apple","b1","b2","b3","b4","b5","b6","b7","b8"].map JSVal.vStr)).2
          (savedLowerOf [WordRecord.mk "u2" "apple" "apple" 0])))
    ∧ (("apple" ∈ inBatchDups (normalizeList (["apple","Apple","b1","b2","b3","b4","b5","b6","b7","b8"].map JSVal.vStr)).2)
      ∧ ("apple" ∉ dbMatchesOf (normalizeList (["apple","Apple","b1","b2","b3","b4","b5","b6","b7","b8"].map JSVal.vStr)).2
          (savedLowerOf [])))
    ∧ (("apple" ∉ inBatchDups (normalizeList (["apple","b1","b2","b3","b4","b5","b6","b7","b8","b9"].map JSVal.vStr)).2)
      ∧ ("apple" ∈ dbMatchesOf (normalizeList (["apple","b1","b2","b3","b4","b5","b6","b7","b8","b9"].map JSVal.vStr)).2
          (savedLowerOf [WordRecord.mk "u2" "apple" "apple" 0])))
    ∧ (("apple" ∉ inBatchDups (normalizeList (["c1","b1","b2","b3","b4","b5","b6","b7","b8","b9"].map JSVal.vStr)).2)
      ∧ ("apple" ∉ dbMatchesOf (normalizeList (["c1","b1","b2","b3","b4","b5","b6","b7","b8","b9"].map JSVal.vStr)).2
          (savedLowerOf [WordRecord.mk "u2" "apple" "apple" 0]))) := by
  decide

/-- C9 counterexample: the item `null` stringifies to the non-empty trimmed
string "null", yet `normalizeList` discards it, because the code coerces with
String(s || "") rather than String(s): a falsy non-string item is emptied out
before coercion instead of being stringified. -/
theorem claim_normalize_counterexample :
    trimStr (jsToString JSVal.vNull) = "null"
    ∧ ("null" : String) ≠ ""
    ∧ (normalizeList [JSVal.vNull]).1 = [] := by
  decide

/-- C9 amended: normalization coerces each item with String(s || "") - so a
falsy item (null, false, 0, "") is discarded outright - trims, and keeps an
item exactly when it is truthy and its trimmed stringification is non-empty,
preserving order; the keys list is the positional lower-casing of the cleaned
list and the two always have equal length. -/
theorem claim_normalize_amended (items : List JSVal) :
    (normalizeList items).1 = coerceTruthyTrimmed items
    ∧ (normalizeList items).2 = ((normalizeList items).1).map toLowerStr
    ∧ ((normalizeList items).2).length = ((normalizeList items).1).length := by
  refine ⟨?_, normalizeList_snd items, ?_⟩
  · rw [normalizeList_fst]
    induction items with
    | nil => rfl
    | cons v vs ih =>
      by_cases hf : jsFalsy v
      · have h1 : trimStr (jsOrEmpty v) = "" := by
          rw [jsOrEmpty, if_pos hf]
          decide
        simp only [List.map_cons, List.filter_cons, h1, coerceTruthyTrimmed,
          List.filterMap_cons, hf]
        simpa [coerceTruthyTrimmed] using ih
      · have hb : jsFalsy v = false := by simpa using hf
        have h1 : trimStr (jsOrEmpty v) = trimStr (jsToString v) := by
          rw [jsOrEmpty, if_neg (by simp [hb])]
        simp only [List.map_cons, List.filter_cons, h1, coerceTruthyTrimmed,
          List.filterMap_cons, hb]
        by_cases ht : trimStr (jsToString v) = ""
        · simp only [ht, if_pos rfl]
          simpa [coerceTruthyTrimmed] using ih
        · have hbne : (trimStr (jsToString v) != "") = true := by simpa using ht
          simp only [if_neg ht, hbne, cond_true]
          simpa [coerceTruthyTrimmed] using congrArg (List.cons (trimStr (jsToString v))) ih
  · rw [normalizeList_snd]
    exact List.length_map _ _

theorem claim_normalize_amended_witness :
    ((normalizeList [JSVal.vStr "  Dog ", JSVal.vNull, JSVal.vStr "", JSVal.vStr "cat"]).1 =
      coerceTruthyTrimmed [JSVal.vStr "  Dog ", JSVal.vNull, JSVal.vStr "", JSVal.vStr "cat"]
    ∧ (normalizeList [JSVal.vStr "  Dog ", JSVal.vNull, JSVal.vStr "", JSVal.vStr "cat"]).2 =
      ((normalizeList [JSVal.vStr "  Dog ", JSVal.vNull, JSVal.vStr "", JSVal.vStr "cat"]).1).map toLowerStr
    ∧ ((normalizeList [JSVal.vStr "  Dog ", JSVal.vNull, JSVal.vStr "", JSVal.vStr "cat"]).2).length =
      ((normalizeList [JSVal.vStr "  Dog ", JSVal.vNull, JSVal.vStr "", JSVal.vStr "cat"]).1).length)
    ∧ (normalizeList [JSVal.vStr "  Dog ", JSVal.vNull, JSVal.vStr "", JSVal.vStr "cat"]).1 =
      ["Dog", "cat"] :=
  ⟨claim_normalize_amended [JSVal.vStr "  Dog ", JSVal.vNull, JSVal.vStr "", JSVal.vStr "cat"],
    by decide⟩

/-- C10: stored-duplicate detection is global across users: any persisted
record whose stored key lower-cases to a submitted key produces a stored
conflict regardless of which user owns it, the validate response does not
depend on the caller's identity at all, and the ordered insert against the
global unique index on the lower-cased key preserves global key uniqueness,
so two users can never both persist the same key. -/
theorem claim_global_uniqueness (action : String) (items : List JSVal) (u u2 : String)
    (now : Nat) (store s1 : List WordRecord) (k : String) (r : WordRecord)
    (hact : toLowerStr action = "validate")
    (hk : k ∈ (normalizeList items).2)
    (hr : r ∈ store)
    (hkey : toLowerStr r.wordLower = k) :
    k ∈ dbMatchesOf (normalizeList items).2 (savedLowerOf store)
    ∧ (handlePost action items u now store s1).1 = (handlePost action items u2 now store s1).1
    ∧ ∀ (st docs : List WordRecord),
        (st.map (fun d => d.wordLower)).Nodup →
        (((insertManyOrdered st docs).store).map (fun d => d.wordLower)).Nodup := by
  refine ⟨?_, ?_, fun st docs h => insertManyOrdered_nodup docs st h⟩
  · rw [mem_dbMatchesOf, mem_savedLowerOf]
    refine ⟨hk, r, hr, ?_, hkey⟩
    intro hz
    apply mem_lowers_ne_empty hk
    rw [← hkey, hz]
    rfl
  · by_cases hlen : (normalizeList items).1.length = 10
    · rw [handlePost_validate_eq action items u now store s1 hlen hact,
        handlePost_validate_eq action items u2 now store s1 hlen hact]
    · rw [handlePost_badRequest action items u now store s1 hlen,
        handlePost_badRequest action items u2 now store s1 hlen]

theorem claim_global_uniqueness_witness :
    (toLowerStr "validate" = "validate"
      ∧ "apple" ∈ (normalizeList p3Batch).2
      ∧ WordRecord.mk "someone" "apple" "apple" 2 ∈ p3Store
      ∧ toLowerStr (WordRecord.mk "someone" "apple" "apple" 2).wordLower = "apple")
    ∧ ("apple" ∈ dbMatchesOf (normalizeList p3Batch).2 (savedLowerOf p3Store)
      ∧ (handlePost "validate" p3Batch "u1" 4 p3Store []).1 =
          (handlePost "validate" p3Batch "otherUser" 4 p3Store []).1
      ∧ ∀ (st docs : List WordRecord),
          (st.map (fun d => d.wordLower)).Nodup →
          (((insertManyOrdered st docs).store).map (fun d => d.wordLower)).Nodup) :=
  ⟨⟨by decide, by decide, by decide, by decide⟩,
    claim_global_uniqueness "validate" p3Batch "u1" "otherUser" 4 p3Store []
      "apple" (WordRecord.mk "someone" "apple" "apple" 2)
      (by decide) (by decide) (by decide) (by decide)⟩
